import Mathlib

/-!
Shallow embedding of the chunked, fault-tolerant remote-inference pipeline
(`src/main.py`, `src/main2.py`) and proofs of the spec's claims about it.

Modelling conventions:
* Python lists become Lean `List`s; in-place mutation of the shared credential
  pool becomes explicit state passing (the pool is threaded through calls).
* Python exceptions become `Except`/`Option` results: a raised exception that
  escapes a function is an `Except.error`/`none`; `try/except` blocks become
  pattern matches on those results.
* The network (`requests.post`) and the language classifier (`langdetect`)
  are external collaborators; they are modelled as an explicit environment
  (`Env`, `Env2`) mapping the request data to an outcome.
* `math.ceil(a / b)` on naturals is `ceil_div a b = (a + b - 1) / b`.
* The unbounded recursion of `process_chunk` is given explicit fuel; the
  fuel-sufficiency lemmas show the recursion depth is bounded by the number
  of valid credentials, so the fuel is a modelling artifact only.
-/

/-- Model of `math.ceil(a / b)` for naturals (`b > 0`); used by `create_chunks`. -/
def ceil_div (a b : Nat) : Nat := (a + b - 1) / b

/-- The slicing loop of `ChunkProcessor.create_chunks` (src/main.py:50-53):
`for i in range(0, total_pages, pages_per_chunk): chunk = pages[i:i+pages_per_chunk];
if chunk: chunks.append(chunk)`. Slicing `pages[i:i+k]` with the first `i`
pages already consumed is `l.take k`, and the next iteration continues on
`l.drop k`. The `fuel` argument is the number of remaining loop iterations the
model allows; `create_chunks` passes `l.length`, which the lemmas below show
is always sufficient when `k ≠ 0` (each iteration consumes at least one page). -/
def chunk_slices_fuel : Nat → Nat → List String → List (List String)
  | 0, _, _ => []
  | _ + 1, _, [] => []
  | fuel + 1, k, p :: ps =>
    let chunk := (p :: ps).take k
    if chunk.isEmpty then chunk_slices_fuel fuel k ((p :: ps).drop k)
    else chunk :: chunk_slices_fuel fuel k ((p :: ps).drop k)

/-- Embeds `ChunkProcessor.create_chunks` (src/main.py:43-55), parameterized by
`numKeys = len(self.api_keys)` (11 in the source: `API_KEYS` has one entry per
`API_KEY_0 .. API_KEY_10`).  Returns `none` when the Python code raises:
for an empty page list, `num_chunks = min(numKeys, ceil(0 / 8)) = 0` and
`pages_per_chunk = math.ceil(total_pages / num_chunks)` raises
`ZeroDivisionError`. -/
def create_chunks (numKeys : Nat) (pages : List String) : Option (List (List String)) :=
  let total_pages := pages.length
  let num_chunks := min numKeys (ceil_div total_pages 8)
  if num_chunks = 0 then none
  else
    let pages_per_chunk := ceil_div total_pages num_chunks
    some (chunk_slices_fuel total_pages pages_per_chunk pages)

/-- The `APIKey` dataclass (src/main.py:26-30). -/
structure APIKey where
  key : String
  used_tokens : Nat
  invalid : Bool
deriving DecidableEq

/-- The valid-credential subset: `[key for key in self.api_keys if not key.invalid]`
(src/main.py:38). -/
def valid_keys (api_keys : List APIKey) : List APIKey :=
  api_keys.filter fun k => !k.invalid

/-- Number of currently valid credentials in the pool. -/
def valid_count (api_keys : List APIKey) : Nat := (valid_keys api_keys).length

/-- Mutation `api_key.invalid = True` (src/main.py:73): the only mutation path of the
`invalid` flag. -/
def markInvalid (k : APIKey) : APIKey := { k with invalid := true }

/-- Embeds `ChunkProcessor.get_next_api_key` (src/main.py:37-41); the local
`valid_keys` variable is the `valid_keys` function applied to the pool.  The
raised `RuntimeError("No valid API keys available.")` (the spec's
`NoValidCredentials`) is modelled as `Except.error`. -/
def get_next_api_key (api_keys : List APIKey) (chunk_index : Nat) : Except String APIKey :=
  if h : (valid_keys api_keys).length = 0 then Except.error "No valid API keys available."
  else Except.ok ((valid_keys api_keys).get
    ⟨chunk_index % (valid_keys api_keys).length, Nat.mod_lt _ (Nat.pos_of_ne_zero h)⟩)

/-- Outcome of one `requests.post` + `raise_for_status` + JSON-parse round trip
in `ChunkProcessor.translate_text` (src/main.py:103-106): a successful call
yields the completion content; a non-2xx response raises
`requests.exceptions.HTTPError` carrying the status code; anything else
(transport failure, malformed response envelope) raises some other exception. -/
inductive CallResult where
  | success (content : String)
  | httpError (status : Nat) (msg : String)
  | otherError (msg : String)
deriving DecidableEq

/-- The external collaborators of `ChunkProcessor`: the `langdetect` classifier
(`detect`, which either returns a language code or raises) and the remote
chat-completion endpoint (`translate`, keyed by the bearer credential string,
the payload text and the target language). -/
structure Env where
  detect : String → Except String String
  translate : String → String → String → CallResult

/-- The per-chunk result dict built by `ChunkProcessor.process_chunk`
(src/main.py:66-70 and 75-87): the success dict has no `error` key (`none`). -/
structure ChunkResult where
  original : String
  translated : String
  status : String
  error : Option String
deriving DecidableEq

/-- The error-result dict of `process_chunk` (src/main.py:75-87): empty
`original` and `translated`, status `error`, `error = str(e)`. -/
def error_result (msg : String) : ChunkResult :=
  { original := "", translated := "", status := "error", error := some msg }

/-- The valid pool entries together with their positions in the pool.  Python
returns aliased `APIKey` objects from `get_next_api_key` and mutates them in
place (src/main.py:73, 105); the functional model needs the pool index of the
selected credential to express that mutation, so the selection is modelled on
`enum`erated entries.  `valid_entries_map_snd` below shows the credentials
listed here are exactly `valid_keys`. -/
def valid_entries (pool : List APIKey) : List (Nat × APIKey) :=
  pool.enum.filter fun e => !e.2.invalid

/-- The credential `get_next_api_key` selects (`valid_keys[chunk_index % len(valid_keys)]`,
src/main.py:41), paired with its pool position.  Only evaluated when the valid
set is nonempty; the default is never read. -/
def selected_entry (pool : List APIKey) (chunk_index : Nat) : Nat × APIKey :=
  (valid_entries pool).getD (chunk_index % (valid_entries pool).length) (0, ⟨"", 0, false⟩)

/-- Embeds `ChunkProcessor.translate_text` (src/main.py:89-106): a single blocking
HTTP POST authorized with `api_key.key`; no internal retry.  The
`used_tokens += 1` on success (line 105) is applied to the pool by
`process_chunk` below, since the Python code mutates the aliased pool entry. -/
def translate_text (env : Env) (text : String) (target_lang : String) (api_key : APIKey) : CallResult :=
  env.translate api_key.key text target_lang

/-- Embeds `ChunkProcessor.process_chunk` (src/main.py:57-87), with the pool state
threaded explicitly and the recursion given fuel (`none` = fuel exhausted; the
fuel-sufficiency lemma `process_chunk_total` shows any fuel exceeding the
valid-credential count is enough, so `none` is a modelling artifact).
Control flow of the source:
* `get_next_api_key` raising `RuntimeError` (empty valid set) is caught by the
  generic `except Exception` handler, producing an error result;
* a `detect` exception is likewise caught by `except Exception`;
* an `HTTPError` with status 401 marks the selected credential invalid and
  recurses on the same chunk; any other `HTTPError`, or any other exception,
  produces an error result. -/
def process_chunk (env : Env) : Nat → List APIKey → List String → Nat →
    Option (List APIKey × Nat × ChunkResult)
  | 0, _, _, _ => none
  | fuel + 1, pool, chunk, chunk_index =>
    if (valid_entries pool).isEmpty then
      some (pool, chunk_index, error_result "No valid API keys available.")
    else
      match env.detect (String.intercalate "\n" chunk) with
      | Except.error msg => some (pool, chunk_index, error_result msg)
      | Except.ok source_lang =>
        match translate_text env (String.intercalate "\n" chunk)
            (if source_lang = "ne" then "English" else "Nepali")
            (selected_entry pool chunk_index).2 with
        | CallResult.success content =>
          some (pool.set (selected_entry pool chunk_index).1
              { (selected_entry pool chunk_index).2 with
                used_tokens := (selected_entry pool chunk_index).2.used_tokens + 1 },
            chunk_index,
            { original := String.intercalate "\n" chunk, translated := content,
              status := "success", error := none })
        | CallResult.httpError status msg =>
          if status = 401 then
            process_chunk env fuel
              (pool.set (selected_entry pool chunk_index).1
                (markInvalid (selected_entry pool chunk_index).2))
              chunk chunk_index
          else some (pool, chunk_index, error_result msg)
        | CallResult.otherError msg => some (pool, chunk_index, error_result msg)

/-- The dispatcher's result dictionary (src/main.py:140-152):
`results[chunk_index] = result` for each completed future, modelled as a
function built by successive updates in arrival order. -/
def collect (arrivals : List (Nat × ChunkResult)) : Nat → Option ChunkResult :=
  arrivals.foldl (fun results e => fun j => if j = e.1 then some e.2 else results j)
    (fun _ => none)

/-- The section label `f"=== Chunk {i+1} ===\n..."` (src/main.py:161-162). -/
def section_header (i : Nat) (body : String) : String :=
  "=== Chunk " ++ toString (i + 1) ++ " ===\n" ++ body

/-- The aggregation loop of `process_document` (src/main.py:156-167): iterate
chunk indices `0..total_chunks-1` in order, append a labeled section for each
success-status result to both output documents, join with `"\n\n---\n\n"`.
A missing index (`none`) contributes nothing; in Python it would raise
`KeyError`, but the dispatcher invariant (proved in the merge theorem) makes
every index `0..total_chunks-1` present. -/
def merged_docs (total_chunks : Nat) (results : Nat → Option ChunkResult) : String × String :=
  (String.intercalate "\n\n---\n\n" ((List.range total_chunks).filterMap fun i =>
      match results i with
      | some r => if r.status = "success" then some (section_header i r.original) else none
      | none => none),
   String.intercalate "\n\n---\n\n" ((List.range total_chunks).filterMap fun i =>
      match results i with
      | some r => if r.status = "success" then some (section_header i r.translated) else none
      | none => none))

/-- The dispatch loop of `process_document` (src/main.py:144-152): one
`process_chunk` task per chunk, indices assigned by `enumerate`.  The
`ThreadPoolExecutor` interleaving is modelled by this sequential linearization
(the pool is the only shared state); result arrival order is irrelevant to the
final output, which is the content of the C9 theorem.  Each call gets fuel
`pool.length + 1`, which exceeds the valid-credential count. -/
def run_chunks (env : Env) : List (List String) → Nat → List APIKey →
    Option (List (Nat × ChunkResult) × List APIKey)
  | [], _, pool => some ([], pool)
  | chunk :: rest, i, pool =>
    match process_chunk env (pool.length + 1) pool chunk i with
    | none => none
    | some (pool', j, r) =>
      match run_chunks env rest (i + 1) pool' with
      | none => none
      | some (pairs, poolF) => some ((j, r) :: pairs, poolF)

/-- Python `str.strip()`: drop leading and trailing whitespace. -/
def pyStrip (s : String) : String :=
  String.mk (((s.toList.dropWhile Char.isWhitespace).reverse.dropWhile Char.isWhitespace).reverse)

/-- Embeds `process_document` (src/main.py:124-169), parameterized by the configured
credential strings (`API_KEYS`, 11 entries in the source) and by the raw page
texts the external PDF extractor returns.  Pages that are blank after
`strip()` are dropped (src/main.py:129-132); zero remaining pages short-circuit
to `None` (run-level failure, src/main.py:134-135); the top-level
`except Exception: return None` is the `none` fall-through of the model. -/
def process_document (env : Env) (api_key_strings : List String) (raw_pages : List String) :
    Option (String × String) :=
  let pages := raw_pages.filter fun t => !(pyStrip t == "")
  if pages.isEmpty then none
  else
    match create_chunks api_key_strings.length pages with
    | none => none
    | some chunks =>
      match run_chunks env chunks 0 (api_key_strings.map fun s => ⟨s, 0, false⟩) with
      | none => none
      | some (pairs, _) => some (merged_docs chunks.length (collect pairs))

/-! ### Definitions for `src/main2.py` (`MetadataExtractor`) -/

/-- Constant `MAX_CHUNK_SIZE` (src/main2.py:22). -/
def MAX_CHUNK_SIZE : Nat := 4000

/-- Python `text.split()` over the character list: splits on runs of
whitespace, producing no empty words. -/
def pySplitAux : List Char → List Char → List String
  | [], acc => if acc.isEmpty then [] else [String.mk acc.reverse]
  | c :: cs, acc =>
    if c.isWhitespace then
      if acc.isEmpty then pySplitAux cs []
      else String.mk acc.reverse :: pySplitAux cs []
    else pySplitAux cs (c :: acc)

/-- Python `text.split()` (no separator argument), as used by
`MetadataExtractor._chunk_text` (src/main2.py:51). -/
def pySplit (text : String) : List String := pySplitAux text.toList []

/-- Python `' '.join(words)`. -/
def joinWords : List String → String
  | [] => ""
  | [w] => w
  | w :: ws => w ++ " " ++ joinWords ws

/-- The accumulation loop of `MetadataExtractor._chunk_text`
(src/main2.py:56-67): `current_chunk`/`current_length` accumulate words;
a word that would push `current_length` past `chunk_size` flushes the current
piece (note: the flush happens even when `current_chunk` is empty, producing an
empty piece when the very first word alone exceeds the budget); the final
nonempty `current_chunk` is flushed after the loop. -/
def chunk_text_loop (chunk_size : Nat) : List String → List String → Nat → List String
  | [], current_chunk, _ =>
    if current_chunk.isEmpty then [] else [joinWords current_chunk]
  | word :: words, current_chunk, current_length =>
    if current_length + (word.length + 1) > chunk_size then
      joinWords current_chunk ::
        chunk_text_loop chunk_size words [word] (word.length + 1)
    else
      chunk_text_loop chunk_size words (current_chunk ++ [word])
        (current_length + (word.length + 1))

/-- Embeds `MetadataExtractor._chunk_text` (src/main2.py:49-69). -/
def _chunk_text (text : String) (chunk_size : Nat) : List String :=
  chunk_text_loop chunk_size (pySplit text) [] 0

/-- Total character mass the loop accounts to a word list:
`len(word) + 1` per word (src/main2.py:57). -/
def word_mass (ws : List String) : Nat := (ws.map fun w => w.length + 1).sum

/-- Embeds `MetadataExtractor.detect_language` (src/main2.py:92-98): `langdetect`
failures are absorbed into the `"unknown"` marker. -/
def detect_language (env : Env) (text : String) : String :=
  match env.detect text with
  | Except.ok lang => lang
  | Except.error _ => "unknown"

/-- Embeds `MetadataExtractor._get_next_api_key` (src/main2.py:41-47): round-robin
rotation advancing `current_key_index` before each use; raises
`APIError("No API keys available.")` on an empty key list.  Returns the new
index together with the selected key string. -/
def _get_next_api_key (api_keys : List String) (current_key_index : Nat) :
    Except String (Nat × String) :=
  if h : api_keys.length = 0 then Except.error "No API keys available."
  else
    Except.ok ((current_key_index + 1) % api_keys.length,
      api_keys.get ⟨(current_key_index + 1) % api_keys.length,
        Nat.mod_lt _ (Nat.pos_of_ne_zero h)⟩)

/-- Outcome of one `requests.post` in `MetadataExtractor._make_api_request`
(src/main2.py:85-87): success, an HTTP error status from `raise_for_status`,
or a transport-level `RequestException`. -/
inductive ReqOutcome where
  | ok (body : String)
  | httpError (status : Nat) (msg : String)
  | transportError (msg : String)
deriving DecidableEq

/-- The remote endpoint as seen by `MetadataExtractor`: outcome per
(attempt number, bearer key). -/
structure Env2 where
  post : Nat → String → ReqOutcome

/-- One execution of the body of `MetadataExtractor._make_api_request`
(src/main2.py:72-90), threading `current_key_index`.  Every
`requests.exceptions.RequestException` — the 401/403 `HTTPError`s from
`raise_for_status` included — is caught and re-raised as
`APIError("API request failed: ...")` (src/main2.py:88-90); the `APIError`
from an empty key list propagates as well.  Result: the updated key index and
either the parsed JSON body or the raised error. -/
def make_api_request_once (env2 : Env2) (api_keys : List String) (attempt : Nat)
    (current_key_index : Nat) : Nat × Except String String :=
  match _get_next_api_key api_keys current_key_index with
  | Except.error e => (current_key_index, Except.error e)
  | Except.ok (idx, key) =>
    match env2.post attempt key with
    | ReqOutcome.ok body => (idx, Except.ok body)
    | ReqOutcome.httpError _ msg => (idx, Except.error ("API request failed: " ++ msg))
    | ReqOutcome.transportError msg => (idx, Except.error ("API request failed: " ++ msg))

/-- Model of tenacity's `wait_exponential(multiplier=1, min=4, max=10)`
(src/main2.py:71), an external collaborator: the sleep before retrying after
attempt `attempt_number` is `multiplier * 2^attempt_number` clamped to
`[min, max]` seconds.  Modelled as data (seconds), not real time. -/
def wait_exponential_model (multiplier mn mx attempt_number : Nat) : Nat :=
  max mn (min (multiplier * 2 ^ attempt_number) mx)

deriving instance DecidableEq for Except

/-- Observable outcome of the tenacity-wrapped `_make_api_request`: how many
attempts ran, the sleeps between them, the final `current_key_index`, and the
final result (the error of the last attempt when all attempts failed). -/
structure RetryResult where
  attempts : Nat
  waits : List Nat
  final_key_index : Nat
  outcome : Except String String
deriving DecidableEq

/-- The retry driver of tenacity's
`@retry(stop=stop_after_attempt(3), wait=wait_exponential(multiplier=1, min=4, max=10))`
(src/main2.py:71), an external collaborator: it retries the decorated function
on ANY exception (tenacity's default `retry_if_exception_type(Exception)` —
there is no filter distinguishing auth errors), sleeping per
`wait_exponential_model`, until `stop_after_attempt(3)` ends the run.
`remaining` is the number of retries still allowed after the current attempt. -/
def retry_request_go (env2 : Env2) (api_keys : List String) :
    Nat → Nat → Nat → List Nat → RetryResult
  | 0, attempt, idx, waits =>
    match make_api_request_once env2 api_keys attempt idx with
    | (idx', res) => ⟨attempt, waits.reverse, idx', res⟩
  | remaining + 1, attempt, idx, waits =>
    match make_api_request_once env2 api_keys attempt idx with
    | (idx', Except.ok body) => ⟨attempt, waits.reverse, idx', Except.ok body⟩
    | (idx', Except.error _) =>
      retry_request_go env2 api_keys remaining (attempt + 1) idx'
        (wait_exponential_model 1 4 10 attempt :: waits)

/-- Embeds `MetadataExtractor._make_api_request` with its tenacity decorator
(src/main2.py:71-90): first attempt is number 1, `stop_after_attempt(3)`
allows 2 further retries. -/
def _make_api_request (env2 : Env2) (api_keys : List String) (current_key_index : Nat) :
    RetryResult :=
  retry_request_go env2 api_keys 2 1 current_key_index []

/-! ### Concrete environments used by witnesses and counterexamples -/

/-- Remote endpoint that always answers 401 Unauthorized; detection succeeds. -/
def env_always_401 : Env :=
  ⟨fun _ => Except.ok "ne", fun _ _ _ => CallResult.httpError 401 "401 Client Error: Unauthorized"⟩

/-- Remote endpoint that always answers 500; detection succeeds. -/
def env_always_500 : Env :=
  ⟨fun _ => Except.ok "ne", fun _ _ _ => CallResult.httpError 500 "500 Server Error"⟩

/-- Healthy environment: detection succeeds, translation succeeds. -/
def env_ok : Env :=
  ⟨fun _ => Except.ok "ne", fun _ _ _ => CallResult.success "TRANSLATED"⟩

/-- Environment whose language classifier always raises. -/
def env_detect_fails : Env :=
  ⟨fun _ => Except.error "LangDetectException: No features in text.",
   fun _ _ _ => CallResult.success "TRANSLATED"⟩

/-- Endpoint of `MetadataExtractor` that always answers 401 Unauthorized. -/
def env2_always_401 : Env2 :=
  ⟨fun _ _ => ReqOutcome.httpError 401 "401 Client Error: Unauthorized"⟩

/-- A concrete per-chunk result assignment (chunk 1 failed, chunks 0 and 2
succeeded), used to witness the aggregation theorem. -/
def f3 : Nat → ChunkResult := fun i =>
  if i = 1 then error_result "boom"
  else { original := toString i, translated := toString i, status := "success", error := none }

/-! ### Arithmetic lemmas for the chunker -/

theorem ceil_div_eq_pred_div_succ {n k : Nat} (hn : n ≠ 0) (hk : k ≠ 0) :
    ceil_div n k = (n - 1) / k + 1 := by
  unfold ceil_div
  have h1 : n + k - 1 = (n - 1) + k := by omega
  rw [h1, Nat.add_div_right _ (Nat.pos_of_ne_zero hk)]

theorem ceil_div_zero_left {k : Nat} (hk : k ≠ 0) : ceil_div 0 k = 0 := by
  unfold ceil_div
  exact Nat.div_eq_of_lt (by omega)

theorem ceil_div_pos {n k : Nat} (hn : n ≠ 0) (hk : k ≠ 0) : ceil_div n k ≠ 0 := by
  rw [ceil_div_eq_pred_div_succ hn hk]
  exact Nat.succ_ne_zero _

/-- Peeling one chunk off the front: `ceil(n/k) = ceil((n-k)/k) + 1` for `n ≥ 1`. -/
theorem ceil_div_sub_self {n k : Nat} (hn : n ≠ 0) (hk : k ≠ 0) :
    ceil_div n k = ceil_div (n - k) k + 1 := by
  rcases le_or_lt n k with h | h
  · have hz : n - k = 0 := by omega
    rw [hz, ceil_div_zero_left hk, ceil_div_eq_pred_div_succ hn hk,
      Nat.div_eq_of_lt (by omega)]
  · have hnk : n - k ≠ 0 := by omega
    rw [ceil_div_eq_pred_div_succ hn hk, ceil_div_eq_pred_div_succ hnk hk]
    have h2 : n - 1 = (n - k - 1) + k := by omega
    rw [h2, Nat.add_div_right _ (Nat.pos_of_ne_zero hk)]

/-- Covering bound `n ≤ K * ceil(n/K)`: `K` groups of `ceil(n/K)` cover all `n` pages. -/
theorem le_mul_ceil_div {n K : Nat} (hK : K ≠ 0) : n ≤ K * ceil_div n K := by
  unfold ceil_div
  have hd := Nat.div_add_mod (n + K - 1) K
  have hm : (n + K - 1) % K < K := Nat.mod_lt _ (Nat.pos_of_ne_zero hK)
  set q := (n + K - 1) / K
  set r := (n + K - 1) % K
  omega

/-- The packing bound: splitting `n ≥ 1` pages into groups of `ceil(n/K)`
produces at most `K` groups. -/
theorem ceil_div_ceil_div_le {n K : Nat} (hn : n ≠ 0) (hK : K ≠ 0) :
    ceil_div n (ceil_div n K) ≤ K := by
  set p := ceil_div n K with hp
  have hp0 : p ≠ 0 := ceil_div_pos hn hK
  have hnK : n ≤ K * p := le_mul_ceil_div hK
  show (n + p - 1) / p ≤ K
  rw [← Nat.lt_succ_iff]
  rw [Nat.div_lt_iff_lt_mul (Nat.pos_of_ne_zero hp0), Nat.succ_mul]
  set M := K * p
  omega

/-! ### Structural lemmas for the slicing loop -/

theorem chunk_slices_fuel_flatten {k : Nat} (hk : k ≠ 0) :
    ∀ fuel l, l.length ≤ fuel → (chunk_slices_fuel fuel k l).flatten = l := by
  intro fuel
  induction fuel with
  | zero =>
    intro l hl
    have : l = [] := List.eq_nil_of_length_eq_zero (Nat.le_zero.mp hl)
    subst this; rfl
  | succ n ih =>
    intro l hl
    cases l with
    | nil => rfl
    | cons p ps =>
      obtain ⟨k', rfl⟩ : ∃ k', k = k' + 1 := ⟨k - 1, by omega⟩
      show (let chunk := (p :: ps).take (k' + 1);
        if chunk.isEmpty then chunk_slices_fuel n (k' + 1) ((p :: ps).drop (k' + 1))
        else chunk :: chunk_slices_fuel n (k' + 1) ((p :: ps).drop (k' + 1))).flatten = p :: ps
      simp only [List.take_succ_cons, List.isEmpty_cons, List.drop_succ_cons]
      rw [if_neg (by simp)]
      rw [List.flatten_cons]
      rw [ih (ps.drop k') (by simp [List.length_drop]; simp at hl; omega)]
      simp [List.take_append_drop]

theorem chunk_slices_fuel_nonempty {k : Nat} :
    ∀ fuel l c, c ∈ chunk_slices_fuel fuel k l → c ≠ [] := by
  intro fuel
  induction fuel with
  | zero => intro l c hc; simp [chunk_slices_fuel] at hc
  | succ n ih =>
    intro l c hc
    cases l with
    | nil => simp [chunk_slices_fuel] at hc
    | cons p ps =>
      simp only [chunk_slices_fuel] at hc
      by_cases he : ((p :: ps).take k).isEmpty
      · rw [if_pos he] at hc
        exact ih _ _ hc
      · rw [if_neg he] at hc
        rcases List.mem_cons.mp hc with h | h
        · subst h
          intro hnil
          rw [hnil] at he
          exact he rfl
        · exact ih _ _ h

theorem chunk_slices_fuel_sizes {k : Nat} :
    ∀ fuel l c, c ∈ chunk_slices_fuel fuel k l → c.length ≤ k := by
  intro fuel
  induction fuel with
  | zero => intro l c hc; simp [chunk_slices_fuel] at hc
  | succ n ih =>
    intro l c hc
    cases l with
    | nil => simp [chunk_slices_fuel] at hc
    | cons p ps =>
      simp only [chunk_slices_fuel] at hc
      by_cases he : ((p :: ps).take k).isEmpty
      · rw [if_pos he] at hc
        exact ih _ _ hc
      · rw [if_neg he] at hc
        rcases List.mem_cons.mp hc with h | h
        · subst h
          exact List.length_take_le _ _
        · exact ih _ _ h

theorem chunk_slices_fuel_length {k : Nat} (hk : k ≠ 0) :
    ∀ fuel l, l.length ≤ fuel →
      (chunk_slices_fuel fuel k l).length = ceil_div l.length k := by
  intro fuel
  induction fuel with
  | zero =>
    intro l hl
    have : l = [] := List.eq_nil_of_length_eq_zero (Nat.le_zero.mp hl)
    subst this
    simp [chunk_slices_fuel, ceil_div_zero_left hk]
  | succ n ih =>
    intro l hl
    cases l with
    | nil => simp [chunk_slices_fuel, ceil_div_zero_left hk]
    | cons p ps =>
      obtain ⟨k', rfl⟩ : ∃ k', k = k' + 1 := ⟨k - 1, by omega⟩
      show (let chunk := (p :: ps).take (k' + 1);
        if chunk.isEmpty then chunk_slices_fuel n (k' + 1) ((p :: ps).drop (k' + 1))
        else chunk :: chunk_slices_fuel n (k' + 1) ((p :: ps).drop (k' + 1))).length =
        ceil_div (p :: ps).length (k' + 1)
      simp only [List.take_succ_cons, List.isEmpty_cons, List.drop_succ_cons]
      rw [if_neg (by simp)]
      rw [List.length_cons]
      rw [ih (ps.drop k') (by simp [List.length_drop]; simp at hl; omega)]
      rw [ceil_div_sub_self (show (p :: ps).length ≠ 0 by simp) hk]
      have hsub : (p :: ps).length - (k' + 1) = ps.length - k' := by simp
      rw [hsub]
      simp [List.length_drop]

/-! ### C1 / C2 / C3 -/

/-- C1: for every nonempty page sequence (and a nonempty credential list, as in
the source where `len(self.api_keys) = 11`), `create_chunks` succeeds and
partitions the pages into contiguous chunks: their in-order concatenation is
the original sequence, no chunk is empty, every chunk has at most
`pages_per_chunk = ceil(len(pages) / num_chunks)` pages, and the number of
chunks is at most `num_chunks = min(numKeys, ceil(len(pages) / 8))`. -/
theorem create_chunks_partition (numKeys : Nat) (pages : List String)
    (hkeys : 0 < numKeys) (hpages : pages ≠ []) :
    ∃ chunks, create_chunks numKeys pages = some chunks ∧
      chunks.flatten = pages ∧
      (∀ c ∈ chunks, c ≠ []) ∧
      (∀ c ∈ chunks, c.length ≤ ceil_div pages.length (min numKeys (ceil_div pages.length 8))) ∧
      chunks.length ≤ min numKeys (ceil_div pages.length 8) := by
  have hn : pages.length ≠ 0 := by
    intro h; exact hpages (List.eq_nil_of_length_eq_zero h)
  have h8 : ceil_div pages.length 8 ≠ 0 := ceil_div_pos hn (by omega)
  have hK : min numKeys (ceil_div pages.length 8) ≠ 0 := by
    set c8 := ceil_div pages.length 8
    omega
  set K := min numKeys (ceil_div pages.length 8) with hKdef
  have hppc : ceil_div pages.length K ≠ 0 := ceil_div_pos hn hK
  refine ⟨chunk_slices_fuel pages.length (ceil_div pages.length K) pages, ?_, ?_, ?_, ?_, ?_⟩
  · unfold create_chunks
    rw [if_neg hK]
  · exact chunk_slices_fuel_flatten hppc _ _ (Nat.le_refl _)
  · intro c hc; exact chunk_slices_fuel_nonempty _ _ c hc
  · intro c hc; exact chunk_slices_fuel_sizes _ _ c hc
  · rw [chunk_slices_fuel_length hppc _ _ (Nat.le_refl _)]
    exact ceil_div_ceil_div_le hn hK

/-- Witness for C1: 20 pages, 11 credentials: `num_chunks = min(11, ceil(20/8)) = 3`,
`pages_per_chunk = ceil(20/3) = 7`. -/
theorem create_chunks_partition_witness :
    ∃ chunks,
      create_chunks 11 (List.range 20 |>.map toString) = some chunks ∧
      chunks.flatten = (List.range 20 |>.map toString) ∧
      (∀ c ∈ chunks, c ≠ []) ∧
      (∀ c ∈ chunks, c.length ≤ ceil_div (List.range 20 |>.map toString).length
        (min 11 (ceil_div (List.range 20 |>.map toString).length 8))) ∧
      chunks.length ≤ min 11 (ceil_div (List.range 20 |>.map toString).length 8) :=
  create_chunks_partition 11 (List.range 20 |>.map toString) (by decide) (by decide)

/-- C2 counterexample: on an empty page sequence `create_chunks` does not return
an empty chunk list — it raises (`num_chunks = min(11, ceil(0/8)) = 0`, so
`math.ceil(total_pages / num_chunks)` divides by zero), modelled as `none`. -/
theorem create_chunks_nil_raises :
    create_chunks 11 [] = none ∧ create_chunks 11 [] ≠ some [] := by
  constructor
  · rfl
  · intro h; cases h

/-- C2 amended: `create_chunks` on an empty page sequence raises
`ZeroDivisionError` (for any pool size, since `num_chunks = 0`); callers avoid
this because `process_document` returns `None` ("nothing to process" is a
run-level failure there) before creating chunks whenever extraction yields no
nonempty page. -/
theorem create_chunks_nil_amended (numKeys : Nat) :
    create_chunks numKeys [] = none := by
  unfold create_chunks
  rw [if_pos]
  simp [ceil_div_zero_left]

/-- Witness for the amended C2 at the source's pool size (11 keys). -/
theorem create_chunks_nil_amended_witness : create_chunks 11 [] = none :=
  create_chunks_nil_amended 11

/-- C3: `get_next_api_key` returns the credential at position
`chunk_index % len(valid_keys)` of the current valid (non-invalid) list,
never returns a credential that has been passed to `markInvalid`
(the returned credential always has `invalid = false`), and raises
`RuntimeError("No valid API keys available.")` exactly when the valid set is
empty.  Determinism is immediate: the selection is a pure function of the
current pool contents and the index. -/
theorem get_next_api_key_spec (api_keys : List APIKey) (chunk_index : Nat) :
    (valid_keys api_keys ≠ [] →
      ∃ k, get_next_api_key api_keys chunk_index = Except.ok k ∧
        (valid_keys api_keys)[chunk_index % (valid_keys api_keys).length]? = some k) ∧
    (∀ k, get_next_api_key api_keys chunk_index = Except.ok k → k.invalid = false) ∧
    (∀ c, get_next_api_key api_keys chunk_index ≠ Except.ok (markInvalid c)) ∧
    (get_next_api_key api_keys chunk_index = Except.error "No valid API keys available." ↔
      valid_keys api_keys = []) := by
  have hok : ∀ k, get_next_api_key api_keys chunk_index = Except.ok k → k.invalid = false := by
    intro k hk
    unfold get_next_api_key at hk
    split at hk
    · cases hk
    · rw [Except.ok.injEq] at hk
      have hmem : k ∈ valid_keys api_keys := by
        rw [← hk]
        exact List.get_mem _ _ _
      have := (List.mem_filter.mp hmem).2
      simpa using this
  refine ⟨?_, hok, ?_, ?_⟩
  · intro hne
    have hlen : (valid_keys api_keys).length ≠ 0 := by
      intro h; exact hne (List.eq_nil_of_length_eq_zero h)
    unfold get_next_api_key
    rw [dif_neg hlen]
    refine ⟨_, rfl, ?_⟩
    rw [List.getElem?_eq_getElem (Nat.mod_lt _ (Nat.pos_of_ne_zero hlen))]
    rfl
  · intro c hc
    have := hok _ hc
    simp [markInvalid] at this
  · constructor
    · intro herr
      unfold get_next_api_key at herr
      split at herr
      · next h => exact List.eq_nil_of_length_eq_zero h
      · cases herr
    · intro hnil
      unfold get_next_api_key
      rw [dif_pos (by rw [hnil]; rfl)]

/-- Witness for C3 on a concrete pool: with key "a" invalidated, index 3 picks
position `3 % 1 = 0` of the valid list `["b"]`. -/
theorem get_next_api_key_spec_witness :
    ∃ k, get_next_api_key [⟨"a", 0, true⟩, ⟨"b", 0, false⟩] 3 = Except.ok k ∧
      (valid_keys [⟨"a", 0, true⟩, ⟨"b", 0, false⟩])[3 % (valid_keys [⟨"a", 0, true⟩, ⟨"b", 0, false⟩]).length]? = some k :=
  (get_next_api_key_spec [⟨"a", 0, true⟩, ⟨"b", 0, false⟩] 3).1 (by decide)

/-! ### Structural lemmas for the credential pool and `process_chunk` -/

theorem valid_entries_map_snd (pool : List APIKey) :
    (valid_entries pool).map Prod.snd = valid_keys pool := by
  unfold valid_entries valid_keys
  conv_rhs => rw [← List.enum_map_snd pool]
  rw [List.filter_map]
  rfl

theorem valid_entries_length (pool : List APIKey) :
    (valid_entries pool).length = valid_count pool := by
  have h := congrArg List.length (valid_entries_map_snd pool)
  simpa [valid_count] using h

theorem valid_entries_mem {pool : List APIKey} {e : Nat × APIKey}
    (he : e ∈ valid_entries pool) :
    pool[e.1]? = some e.2 ∧ e.2.invalid = false := by
  have h := List.mem_filter.mp he
  refine ⟨List.mem_enum_iff_getElem?.mp h.1, by simpa using h.2⟩

theorem selected_entry_spec {pool : List APIKey} (chunk_index : Nat)
    (h : valid_entries pool ≠ []) :
    pool[(selected_entry pool chunk_index).1]? = some (selected_entry pool chunk_index).2 ∧
    (selected_entry pool chunk_index).2.invalid = false := by
  have hlen : 0 < (valid_entries pool).length := List.length_pos.mpr h
  have hmem : selected_entry pool chunk_index ∈ valid_entries pool := by
    unfold selected_entry
    rw [List.getD_eq_getElem _ _ (Nat.mod_lt _ hlen)]
    exact List.getElem_mem _
  exact valid_entries_mem hmem

/-- Consistency of the `process_chunk` embedding with the source's call to
`get_next_api_key`: the credential of the selected entry is exactly the
credential `get_next_api_key` returns. -/
theorem get_next_api_key_eq_selected (pool : List APIKey) (chunk_index : Nat)
    (h : valid_entries pool ≠ []) :
    get_next_api_key pool chunk_index = Except.ok (selected_entry pool chunk_index).2 := by
  have hmap := valid_entries_map_snd pool
  have hlen2 : (valid_keys pool).length = (valid_entries pool).length := by
    rw [← hmap, List.length_map]
  have hvk : (valid_keys pool).length ≠ 0 := by
    intro h0
    apply h
    apply List.eq_nil_of_length_eq_zero
    omega
  have hmlt : chunk_index % (valid_entries pool).length < (valid_entries pool).length :=
    Nat.mod_lt _ (Nat.pos_of_ne_zero (by omega))
  have hsel : selected_entry pool chunk_index =
      (valid_entries pool)[chunk_index % (valid_entries pool).length] := by
    unfold selected_entry
    exact List.getD_eq_getElem _ _ hmlt
  have hq : (valid_keys pool)[chunk_index % (valid_keys pool).length]? =
      some (selected_entry pool chunk_index).2 := by
    rw [hsel, ← hmap, List.length_map, List.getElem?_map,
      List.getElem?_eq_getElem hmlt]
    rfl
  have hg : (valid_keys pool)[chunk_index % (valid_keys pool).length]? =
      some ((valid_keys pool).get
        ⟨chunk_index % (valid_keys pool).length, Nat.mod_lt _ (Nat.pos_of_ne_zero hvk)⟩) := by
    rw [List.getElem?_eq_getElem (Nat.mod_lt _ (Nat.pos_of_ne_zero hvk))]
    rfl
  unfold get_next_api_key
  rw [dif_neg hvk, Except.ok.injEq]
  exact Option.some.inj (hg.symm.trans hq)

/-- Marking a currently valid credential invalid decreases the valid count by
exactly one. -/
theorem valid_count_set_markInvalid :
    ∀ (pool : List APIKey) (j : Nat) (k : APIKey),
      pool[j]? = some k → k.invalid = false →
      valid_count (pool.set j (markInvalid k)) + 1 = valid_count pool := by
  intro pool
  induction pool with
  | nil => intro j k hj _; simp at hj
  | cons a tl ih =>
    intro j k hj hv
    cases j with
    | zero =>
      simp only [List.getElem?_cons_zero, Option.some.injEq] at hj
      subst hj
      simp [valid_count, valid_keys, markInvalid, List.filter_cons, hv]
    | succ j' =>
      simp only [List.getElem?_cons_succ] at hj
      have hih := ih j' k hj hv
      by_cases ha : a.invalid
      · simp only [List.set_cons_succ, valid_count, valid_keys, List.filter_cons, ha,
          Bool.not_true, Bool.false_eq_true, if_false] at hih ⊢
        exact hih
      · simp only [List.set_cons_succ, valid_count, valid_keys, List.filter_cons,
          Bool.not_eq_true'] at hih ⊢
        rw [if_pos (by simp [ha]), if_pos (by simp [ha])]
        simp only [List.length_cons]
        omega

/-- Fuel sufficiency and interface shape of `process_chunk`: with fuel
exceeding the valid-credential count the call returns, preserves the pool
size, echoes the chunk index, and yields either a success result or an
error result with empty texts. -/
theorem process_chunk_total (env : Env) :
    ∀ fuel pool chunk chunk_index, valid_count pool < fuel →
      ∃ pool' r, process_chunk env fuel pool chunk chunk_index = some (pool', chunk_index, r) ∧
        pool'.length = pool.length ∧
        (r.status = "success" ∨ (r.status = "error" ∧ r.original = "" ∧ r.translated = "")) := by
  intro fuel
  induction fuel with
  | zero => intro pool c i h; exact absurd h (Nat.not_lt_zero _)
  | succ n ih =>
    intro pool c i h
    by_cases hemp : valid_entries pool = []
    · refine ⟨pool, error_result "No valid API keys available.", ?_, rfl,
        Or.inr ⟨rfl, rfl, rfl⟩⟩
      simp [process_chunk, hemp]
    · have hne : (valid_entries pool).isEmpty = false := List.isEmpty_eq_false.mpr hemp
      cases hdet : env.detect (String.intercalate "\n" c) with
      | error msg =>
        refine ⟨pool, error_result msg, ?_, rfl, Or.inr ⟨rfl, rfl, rfl⟩⟩
        simp [process_chunk, hne, hdet]
      | ok lang =>
        cases htr : translate_text env (String.intercalate "\n" c)
            (if lang = "ne" then "English" else "Nepali") (selected_entry pool i).2 with
        | success content =>
          refine ⟨pool.set (selected_entry pool i).1
              { (selected_entry pool i).2 with
                used_tokens := (selected_entry pool i).2.used_tokens + 1 },
            { original := String.intercalate "\n" c, translated := content,
              status := "success", error := none }, ?_, ?_, Or.inl rfl⟩
          · simp [process_chunk, hne, hdet, htr]
          · simp [List.length_set]
        | httpError status msg =>
          by_cases h401 : status = 401
          · subst h401
            have hsel := selected_entry_spec i hemp
            have hcount := valid_count_set_markInvalid pool _ _ hsel.1 hsel.2
            obtain ⟨pool', r, heq, hlen, hr⟩ :=
              ih (pool.set (selected_entry pool i).1 (markInvalid (selected_entry pool i).2))
                c i (by omega)
            have hstep : process_chunk env (n + 1) pool c i =
                process_chunk env n
                  (pool.set (selected_entry pool i).1 (markInvalid (selected_entry pool i).2))
                  c i := by
              simp [process_chunk, hne, hdet, htr]
            refine ⟨pool', r, ?_, ?_, hr⟩
            · rw [hstep]; exact heq
            · rw [hlen, List.length_set]
          · refine ⟨pool, error_result msg, ?_, rfl, Or.inr ⟨rfl, rfl, rfl⟩⟩
            simp [process_chunk, hne, hdet, htr, h401]
        | otherError msg =>
          refine ⟨pool, error_result msg, ?_, rfl, Or.inr ⟨rfl, rfl, rfl⟩⟩
          simp [process_chunk, hne, hdet, htr]

/-- Under an environment whose remote call always answers 401, `process_chunk`
invalidates one valid credential per round and ends with the pool exhausted
and the `NoValidCredentials` error result. -/
theorem process_chunk_always401_helper (env : Env)
    (hdet : ∀ t, ∃ l, env.detect t = Except.ok l)
    (h401 : ∀ key text lang, ∃ m, env.translate key text lang = CallResult.httpError 401 m) :
    ∀ fuel pool chunk chunk_index, valid_count pool < fuel →
      ∃ pool', process_chunk env fuel pool chunk chunk_index =
          some (pool', chunk_index, error_result "No valid API keys available.") ∧
        valid_count pool' = 0 := by
  intro fuel
  induction fuel with
  | zero => intro pool c i h; exact absurd h (Nat.not_lt_zero _)
  | succ n ih =>
    intro pool c i h
    by_cases hemp : valid_entries pool = []
    · refine ⟨pool, ?_, ?_⟩
      · simp [process_chunk, hemp]
      · have hlen := valid_entries_length pool
        rw [hemp] at hlen
        exact hlen.symm
    · have hne : (valid_entries pool).isEmpty = false := List.isEmpty_eq_false.mpr hemp
      obtain ⟨lang, hlang⟩ := hdet (String.intercalate "\n" c)
      obtain ⟨m, hm⟩ := h401 (selected_entry pool i).2.key (String.intercalate "\n" c)
        (if lang = "ne" then "English" else "Nepali")
      have hsel := selected_entry_spec i hemp
      have hcount := valid_count_set_markInvalid pool _ _ hsel.1 hsel.2
      obtain ⟨pool', heq, hvc⟩ :=
        ih (pool.set (selected_entry pool i).1 (markInvalid (selected_entry pool i).2))
          c i (by omega)
      have hstep : process_chunk env (n + 1) pool c i =
          process_chunk env n
            (pool.set (selected_entry pool i).1 (markInvalid (selected_entry pool i).2))
            c i := by
        simp [process_chunk, hne, hlang, translate_text, hm]
      exact ⟨pool', by rw [hstep]; exact heq, hvc⟩

/-! ### C4 / C10 / C6 / C5 -/

/-- C4: processing a chunk whose remote call always fails with 401 terminates:
each auth failure marks the credential just used invalid before retrying the
same chunk, the valid set strictly shrinks, and fuel `valid_count pool + 1`
(at most pool size + 1 rounds) already suffices, ending in the
`NoValidCredentials` error with the pool exhausted. -/
theorem process_chunk_always_401_terminates (env : Env)
    (hdet : ∀ t, ∃ l, env.detect t = Except.ok l)
    (h401 : ∀ key text lang, ∃ m, env.translate key text lang = CallResult.httpError 401 m)
    (pool : List APIKey) (chunk : List String) (chunk_index : Nat) :
    ∃ pool', process_chunk env (valid_count pool + 1) pool chunk chunk_index =
        some (pool', chunk_index, error_result "No valid API keys available.") ∧
      valid_count pool' = 0 :=
  process_chunk_always401_helper env hdet h401 (valid_count pool + 1) pool chunk chunk_index
    (Nat.lt_succ_self _)

/-- Witness for C4: two fresh credentials, an endpoint that always answers
401; two rotation rounds exhaust the pool. -/
theorem process_chunk_always_401_terminates_witness :
    ∃ pool', process_chunk env_always_401
        (valid_count [⟨"k0", 0, false⟩, ⟨"k1", 0, false⟩] + 1)
        [⟨"k0", 0, false⟩, ⟨"k1", 0, false⟩] ["page one"] 0 =
        some (pool', 0, error_result "No valid API keys available.") ∧
      valid_count pool' = 0 :=
  process_chunk_always_401_terminates env_always_401
    (fun _ => ⟨"ne", rfl⟩) (fun _ _ _ => ⟨"401 Client Error: Unauthorized", rfl⟩)
    [⟨"k0", 0, false⟩, ⟨"k1", 0, false⟩] ["page one"] 0

/-- C10: `process_chunk` is total at its public interface: with any fuel
exceeding the valid-credential count (the recursion bound), it returns a pair
whose index equals the `chunk_index` argument and whose result status is
`"success"` or `"error"`; no exception escapes, and every error-status result
carries empty `original` and `translated` strings, discarding the chunk's
combined text. -/
theorem process_chunk_total_interface (env : Env) (fuel : Nat) (pool : List APIKey)
    (chunk : List String) (chunk_index : Nat) (h : valid_count pool < fuel) :
    ∃ pool' r, process_chunk env fuel pool chunk chunk_index = some (pool', chunk_index, r) ∧
      (r.status = "success" ∨ r.status = "error") ∧
      (r.status = "error" → r.original = "" ∧ r.translated = "") := by
  obtain ⟨pool', r, heq, _, hr⟩ := process_chunk_total env fuel pool chunk chunk_index h
  refine ⟨pool', r, heq, ?_, ?_⟩
  · rcases hr with h1 | h1
    · exact Or.inl h1
    · exact Or.inr h1.1
  · intro herr
    rcases hr with h1 | h1
    · rw [h1] at herr
      exact absurd herr (by decide)
    · exact ⟨h1.2.1, h1.2.2⟩

/-- Witness for C10 in a healthy environment. -/
theorem process_chunk_total_interface_witness :
    ∃ pool' r, process_chunk env_ok 2 [⟨"k0", 0, false⟩] ["p"] 0 = some (pool', 0, r) ∧
      (r.status = "success" ∨ r.status = "error") ∧
      (r.status = "error" → r.original = "" ∧ r.translated = "") :=
  process_chunk_total_interface env_ok 2 [⟨"k0", 0, false⟩] ["p"] 0 (by decide)

/-- C6 counterexample: in `ChunkProcessor.process_chunk` a language-detection
failure is NOT absorbed into an `unknown` marker — the exception falls into
the generic `except Exception` handler and the chunk is marked `error`
(status `"error"`, original and translated texts discarded), so detection
failure does cause the chunk to fail. -/
theorem process_chunk_detect_failure_fails_chunk :
    process_chunk env_detect_fails 2 [⟨"k0", 0, false⟩] ["hi"] 0 =
      some ([⟨"k0", 0, false⟩], 0,
        error_result "LangDetectException: No features in text.") ∧
    (error_result "LangDetectException: No features in text.").status = "error" := by
  constructor
  · decide
  · decide

/-- C6 amended: only `MetadataExtractor.detect_language` (src/main2.py:92-98)
fails open to the `"unknown"` marker; in the translation pipeline's
`ChunkProcessor.process_chunk` a detection failure is caught by the generic
handler and the chunk result is the `error`-status result carrying the
detection exception text (the chunk fails rather than continuing with a
fallback language). -/
theorem detect_failure_amended (env : Env) (msg : String) :
    (∀ t, env.detect t = Except.error msg → detect_language env t = "unknown") ∧
    (∀ pool chunk chunk_index fuel,
      env.detect (String.intercalate "\n" chunk) = Except.error msg →
      valid_entries pool ≠ [] →
      process_chunk env (fuel + 1) pool chunk chunk_index =
        some (pool, chunk_index, error_result msg)) := by
  constructor
  · intro t h
    simp [detect_language, h]
  · intro pool c i fuel hd hne
    simp [process_chunk, List.isEmpty_eq_false.mpr hne, hd]

/-- Witness for the amended C6. -/
theorem detect_failure_amended_witness :
    detect_language env_detect_fails "hi" = "unknown" ∧
    process_chunk env_detect_fails 1 [⟨"k0", 0, false⟩] ["hi"] 0 =
      some ([⟨"k0", 0, false⟩], 0,
        error_result "LangDetectException: No features in text.") :=
  ⟨(detect_failure_amended env_detect_fails "LangDetectException: No features in text.").1
      "hi" rfl,
   (detect_failure_amended env_detect_fails "LangDetectException: No features in text.").2
      [⟨"k0", 0, false⟩] ["hi"] 0 0 rfl (by decide)⟩

theorem valid_count_le_length (pool : List APIKey) : valid_count pool ≤ pool.length :=
  List.length_filter_le _ _

/-- The dispatch loop always completes: every `process_chunk` call gets
sufficient fuel. -/
theorem run_chunks_total (env : Env) :
    ∀ (chunks : List (List String)) (i : Nat) (pool : List APIKey),
      ∃ pairs poolF, run_chunks env chunks i pool = some (pairs, poolF) := by
  intro chunks
  induction chunks with
  | nil => intro i pool; exact ⟨[], pool, rfl⟩
  | cons c rest ih =>
    intro i pool
    obtain ⟨pool', r, heq, _, _⟩ :=
      process_chunk_total env (pool.length + 1) pool c i
        (Nat.lt_succ_of_le (valid_count_le_length pool))
    obtain ⟨pairs, poolF, heq2⟩ := ih (i + 1) pool'
    exact ⟨(i, r) :: pairs, poolF, by simp [run_chunks, heq, heq2]⟩

/-- C5 counterexample: credential-pool exhaustion is NOT fatal for the run.
With a single credential and an endpoint that always answers 401, the pool is
exhausted while processing chunk 0; the resulting `NoValidCredentials` is
absorbed into that chunk's `error` result and `process_document` still
returns a merged output (here the empty pair, every chunk having failed)
instead of a run-level failure. -/
theorem no_valid_credentials_not_fatal :
    process_document env_always_401 ["k0"] ["a"] = some ("", "") ∧
    process_chunk env_always_401 2 [⟨"k0", 0, false⟩] ["a"] 0 =
      some ([⟨"k0", 0, true⟩], 0, error_result "No valid API keys available.") := by
  constructor
  · decide
  · decide

/-- C5 amended: `NoValidCredentials` (the `RuntimeError` from
`get_next_api_key`) is raised inside `process_chunk`'s `try` block and caught
by its generic handler, becoming a per-chunk `error` result; the run itself
always completes with a merged (possibly partial or empty) output whenever
extraction yields at least one nonempty page and the configured key list is
nonempty.  Run-level failure (`None`) arises only from zero extractable pages
or a top-level exception. -/
theorem no_valid_credentials_absorbed (env : Env) (api_key_strings raw_pages : List String)
    (hkeys : api_key_strings ≠ [])
    (hpages : raw_pages.filter (fun t => !(pyStrip t == "")) ≠ []) :
    (∃ out, process_document env api_key_strings raw_pages = some out) ∧
    (∀ pool chunk chunk_index, valid_count pool = 0 →
      process_chunk env 1 pool chunk chunk_index =
        some (pool, chunk_index, error_result "No valid API keys available.")) := by
  constructor
  · have hpe : (raw_pages.filter (fun t => !(pyStrip t == ""))).isEmpty = false :=
      List.isEmpty_eq_false.mpr hpages
    have hn : (raw_pages.filter (fun t => !(pyStrip t == ""))).length ≠ 0 := by
      intro h
      exact hpages (List.eq_nil_of_length_eq_zero h)
    have hkl : api_key_strings.length ≠ 0 := by
      intro h
      exact hkeys (List.eq_nil_of_length_eq_zero h)
    have h8 : ceil_div (raw_pages.filter (fun t => !(pyStrip t == ""))).length 8 ≠ 0 :=
      ceil_div_pos hn (by omega)
    have hmin : min api_key_strings.length
        (ceil_div (raw_pages.filter (fun t => !(pyStrip t == ""))).length 8) ≠ 0 := by
      set c8 := ceil_div (raw_pages.filter (fun t => !(pyStrip t == ""))).length 8
      omega
    have hcc : create_chunks api_key_strings.length
        (raw_pages.filter (fun t => !(pyStrip t == ""))) =
        some (chunk_slices_fuel (raw_pages.filter (fun t => !(pyStrip t == ""))).length
          (ceil_div (raw_pages.filter (fun t => !(pyStrip t == ""))).length
            (min api_key_strings.length
              (ceil_div (raw_pages.filter (fun t => !(pyStrip t == ""))).length 8)))
          (raw_pages.filter (fun t => !(pyStrip t == "")))) := by
      unfold create_chunks
      rw [if_neg hmin]
    obtain ⟨pairs, poolF, hrun⟩ := run_chunks_total env
      (chunk_slices_fuel (raw_pages.filter (fun t => !(pyStrip t == ""))).length
        (ceil_div (raw_pages.filter (fun t => !(pyStrip t == ""))).length
          (min api_key_strings.length
            (ceil_div (raw_pages.filter (fun t => !(pyStrip t == ""))).length 8)))
        (raw_pages.filter (fun t => !(pyStrip t == ""))))
      0 (api_key_strings.map fun s => ⟨s, 0, false⟩)
    have hsome : (process_document env api_key_strings raw_pages).isSome = true := by
      simp only [process_document, hpe, Bool.false_eq_true, if_false, hcc, hrun,
        Option.isSome_some]
    exact Option.isSome_iff_exists.mp hsome
  · intro pool c i hvc
    have hemp : valid_entries pool = [] := by
      have hlen := valid_entries_length pool
      rw [hvc] at hlen
      exact List.eq_nil_of_length_eq_zero hlen
    simp [process_chunk, hemp]

/-- Witness for the amended C5. -/
theorem no_valid_credentials_absorbed_witness :
    (∃ out, process_document env_ok ["k0"] ["hello"] = some out) ∧
    (∀ pool chunk chunk_index, valid_count pool = 0 →
      process_chunk env_ok 1 pool chunk chunk_index =
        some (pool, chunk_index, error_result "No valid API keys available.")) :=
  no_valid_credentials_absorbed env_ok ["k0"] ["hello"] (by decide) (by decide)

/-! ### C7: retry behavior of the remote clients -/

/-- Under an endpoint that never succeeds, every single execution of the
`_make_api_request` body raises (`APIError`), whatever the attempt number and
key index. -/
theorem make_api_request_once_fails (env2 : Env2) (api_keys : List String)
    (hfail : ∀ a k b, env2.post a k ≠ ReqOutcome.ok b) (a i : Nat) :
    ∃ i' e, make_api_request_once env2 api_keys a i = (i', Except.error e) := by
  unfold make_api_request_once _get_next_api_key
  by_cases h : api_keys.length = 0
  · rw [dif_pos h]
    exact ⟨i, "No API keys available.", rfl⟩
  · rw [dif_neg h]
    cases hp : env2.post a (api_keys.get
        ⟨(i + 1) % api_keys.length, Nat.mod_lt _ (Nat.pos_of_ne_zero h)⟩) with
    | ok body => exact absurd hp (hfail _ _ _)
    | httpError s m =>
      refine ⟨(i + 1) % api_keys.length, "API request failed: " ++ m, ?_⟩
      simp only [List.get_eq_getElem] at hp
      simp [hp]
    | transportError m =>
      refine ⟨(i + 1) % api_keys.length, "API request failed: " ++ m, ?_⟩
      simp only [List.get_eq_getElem] at hp
      simp [hp]

/-- C7 counterexample: an authentication failure (401) IS retried internally
by `MetadataExtractor._make_api_request` — with an endpoint that always
answers 401, tenacity runs 3 attempts (not 1) with sleeps of 4s and 4s, then
surfaces the wrapped `APIError`; no credential rotation on auth failure
happens at the caller (`MetadataExtractor` never marks keys invalid). -/
theorem auth_error_retried_internally :
    (_make_api_request env2_always_401 ["k0", "k1"] 0).attempts = 3 ∧
    (_make_api_request env2_always_401 ["k0", "k1"] 0).waits = [4, 4] ∧
    (_make_api_request env2_always_401 ["k0", "k1"] 0).outcome =
      Except.error "API request failed: 401 Client Error: Unauthorized" ∧
    (_make_api_request env2_always_401 ["k0", "k1"] 0).attempts ≠ 1 := by
  refine ⟨?_, ?_, ?_, ?_⟩ <;> decide

/-- C7 amended: the bounded retry with exponential backoff lives in
`MetadataExtractor._make_api_request` and retries EVERY failure — auth errors
(401/403) included, since all `RequestException`s are re-raised as `APIError`
and tenacity retries on any exception: any persistently failing endpoint gets
exactly 3 attempts with sleeps `[4, 4]` (wait_exponential multiplier 1, min
4s, cap 10s) before the error surfaces.  `ChunkProcessor.translate_text`
(src/main.py) performs a single attempt with no internal retry: a persistent
non-401 HTTP failure immediately becomes the chunk's error result (credential
rotation on 401 happens at the `process_chunk` level instead). -/
theorem remote_retry_amended (env2 : Env2) (api_keys : List String) (idx0 : Nat)
    (hfail : ∀ a k b, env2.post a k ≠ ReqOutcome.ok b) :
    ((_make_api_request env2 api_keys idx0).attempts = 3 ∧
     (_make_api_request env2 api_keys idx0).waits = [4, 4] ∧
     ∃ e, (_make_api_request env2 api_keys idx0).outcome = Except.error e) ∧
    (∀ (env : Env) pool chunk chunk_index fuel msg,
      (∀ key text lang, env.translate key text lang = CallResult.httpError 500 msg) →
      (∀ t, ∃ l, env.detect t = Except.ok l) →
      valid_entries pool ≠ [] →
      process_chunk env (fuel + 1) pool chunk chunk_index =
        some (pool, chunk_index, error_result msg)) := by
  constructor
  · obtain ⟨i1, e1, h1⟩ := make_api_request_once_fails env2 api_keys hfail 1 idx0
    obtain ⟨i2, e2, h2⟩ := make_api_request_once_fails env2 api_keys hfail 2 i1
    obtain ⟨i3, e3, h3⟩ := make_api_request_once_fails env2 api_keys hfail 3 i2
    refine ⟨?_, ?_, ⟨e3, ?_⟩⟩
    · simp [_make_api_request, retry_request_go, h1, h2, h3]
    · simp [_make_api_request, retry_request_go, h1, h2, h3, wait_exponential_model]
    · simp [_make_api_request, retry_request_go, h1, h2, h3]
  · intro env pool c i fuel msg h500 hdet hne
    obtain ⟨lang, hlang⟩ := hdet (String.intercalate "\n" c)
    simp [process_chunk, List.isEmpty_eq_false.mpr hne, hlang, translate_text, h500]

/-- Witness for the amended C7, on the always-401 endpoint and the always-500
translation endpoint. -/
theorem remote_retry_amended_witness :
    ((_make_api_request env2_always_401 ["k0"] 0).attempts = 3 ∧
     (_make_api_request env2_always_401 ["k0"] 0).waits = [4, 4] ∧
     ∃ e, (_make_api_request env2_always_401 ["k0"] 0).outcome = Except.error e) ∧
    (∀ (env : Env) pool chunk chunk_index fuel msg,
      (∀ key text lang, env.translate key text lang = CallResult.httpError 500 msg) →
      (∀ t, ∃ l, env.detect t = Except.ok l) →
      valid_entries pool ≠ [] →
      process_chunk env (fuel + 1) pool chunk chunk_index =
        some (pool, chunk_index, error_result msg)) :=
  remote_retry_amended env2_always_401 ["k0"] 0
    (fun _ _ _ h => by simp [env2_always_401] at h)

/-! ### C8: word-boundary text chunking -/

/-- Length of `' '.join(ws)`: one character shorter than the accounted mass
`sum (len(w) + 1)` of a nonempty word list. -/
theorem joinWords_length : ∀ ws : List String, ws ≠ [] →
    (joinWords ws).length + 1 = word_mass ws
  | [w], _ => by simp [joinWords, word_mass]
  | w :: x :: ws, _ => by
    have ih := joinWords_length (x :: ws) (by simp)
    have hsp : (" " : String).length = 1 := rfl
    have hlen : (joinWords (w :: x :: ws)).length =
        w.length + 1 + (joinWords (x :: ws)).length := by
      show (w ++ " " ++ joinWords (x :: ws)).length = _
      simp [String.length_append, hsp]
    simp only [word_mass, List.map_cons, List.sum_cons] at ih ⊢
    omega

theorem piece_length_le {g : List String} {cs : Nat} (h : word_mass g ≤ cs) :
    (joinWords g).length ≤ cs := by
  cases g with
  | nil =>
    show (joinWords []).length ≤ cs
    simp [joinWords]
  | cons w ws =>
    have := joinWords_length (w :: ws) (by simp)
    omega

/-- Invariant of the `_chunk_text` accumulation loop: the emitted pieces are
the space-joins of a partition of `cc ++ ws` into word groups, and — provided
every word's mass fits the budget and the accumulator respects it — every
group's mass stays within the budget. -/
theorem chunk_text_loop_spec (cs : Nat) :
    ∀ (ws cc : List String) (cl : Nat),
      ∃ gs : List (List String), chunk_text_loop cs ws cc cl = gs.map joinWords ∧
        gs.flatten = cc ++ ws ∧
        ((∀ w ∈ ws, w.length + 1 ≤ cs) → word_mass cc ≤ cs → cl = word_mass cc →
          ∀ g ∈ gs, word_mass g ≤ cs) := by
  intro ws
  induction ws with
  | nil =>
    intro cc cl
    by_cases hc : cc.isEmpty
    · have hcc : cc = [] := List.isEmpty_iff.mp hc
      subst hcc
      refine ⟨[], ?_, by simp, ?_⟩
      · simp [chunk_text_loop]
      · intro _ _ _ g hg
        simp at hg
    · refine ⟨[cc], ?_, by simp, ?_⟩
      · simp [chunk_text_loop, hc]
      · intro _ hcc _ g hg
        simp at hg
        subst hg
        exact hcc
  | cons w ws ih =>
    intro cc cl
    by_cases hgt : cl + (w.length + 1) > cs
    · obtain ⟨gs, hmap, hflat, hbound⟩ := ih [w] (w.length + 1)
      refine ⟨cc :: gs, ?_, ?_, ?_⟩
      · simp [chunk_text_loop, hgt, hmap]
      · simp [hflat]
      · intro hws hcc _ g hg
        rcases List.mem_cons.mp hg with h | h
        · subst h
          exact hcc
        · refine hbound (fun x hx => hws x (List.mem_cons_of_mem _ hx)) ?_ ?_ g h
          · simpa [word_mass] using hws w (List.mem_cons_self _ _)
          · simp [word_mass]
    · obtain ⟨gs, hmap, hflat, hbound⟩ := ih (cc ++ [w]) (cl + (w.length + 1))
      refine ⟨gs, ?_, ?_, ?_⟩
      · simp only [chunk_text_loop]
        rw [if_neg hgt]
        exact hmap
      · rw [hflat]
        simp
      · intro hws hcc hcl g hg
        refine hbound (fun x hx => hws x (List.mem_cons_of_mem _ hx)) ?_ ?_ g hg
        · have hmass : word_mass (cc ++ [w]) = word_mass cc + (w.length + 1) := by
            simp [word_mass]
          omega
        · have hmass : word_mass (cc ++ [w]) = word_mass cc + (w.length + 1) := by
            simp [word_mass]
          omega

/-- C8 counterexample: a single word longer than the budget is not truncated:
with budget 5, the text `"abcdefgh"` chunks into an empty piece followed by
the oversized 8-character piece, so the pieces do NOT all fit the configured
character budget. -/
theorem chunk_text_counterexample :
    _chunk_text "abcdefgh" 5 = ["", "abcdefgh"] ∧
    "abcdefgh" ∈ _chunk_text "abcdefgh" 5 ∧ 5 < "abcdefgh".length := by
  refine ⟨?_, ?_, ?_⟩ <;> decide

/-- C8 amended: `_chunk_text` splits only on word boundaries — the pieces are
the space-joins of a partition of the text's word sequence (Python
`text.split()`), so concatenating the pieces' words in order reconstructs the
word sequence exactly, whitespace normalized to single spaces — and every
piece fits the configured character budget PROVIDED every single word does
(`len(word) + 1 ≤ chunk_size`); a word exceeding the budget becomes its own
oversized piece (preceded by an empty piece when the accumulator was empty),
which is also why a 9000-character string with a 4000-character budget need
not yield exactly 3 pieces (e.g. a single 9000-character word yields 2). -/
theorem chunk_text_amended (text : String) (chunk_size : Nat) :
    ∃ gs : List (List String), _chunk_text text chunk_size = gs.map joinWords ∧
      gs.flatten = pySplit text ∧
      ((∀ w ∈ pySplit text, w.length + 1 ≤ chunk_size) →
        ∀ p ∈ _chunk_text text chunk_size, p.length ≤ chunk_size) := by
  obtain ⟨gs, hmap, hflat, hbound⟩ := chunk_text_loop_spec chunk_size (pySplit text) [] 0
  refine ⟨gs, hmap, by simpa using hflat, ?_⟩
  intro hws p hp
  have hmap' : _chunk_text text chunk_size = List.map joinWords gs := hmap
  rw [hmap'] at hp
  obtain ⟨g, hg, rfl⟩ := List.mem_map.mp hp
  exact piece_length_le (hbound hws (by simp [word_mass]) (by simp [word_mass]) g hg)

/-- Witness for the amended C8: `"aa bb cc"` with budget 5 splits into
`["aa", "bb", "cc"]`, each within the budget. -/
theorem chunk_text_amended_witness :
    (∃ gs : List (List String), _chunk_text "aa bb cc" 5 = gs.map joinWords ∧
      gs.flatten = pySplit "aa bb cc") ∧
    (∀ p ∈ _chunk_text "aa bb cc" 5, p.length ≤ 5) := by
  obtain ⟨gs, h1, h2, h3⟩ := chunk_text_amended "aa bb cc" 5
  exact ⟨⟨gs, h1, h2⟩, h3 (by decide)⟩

/-! ### C9: dispatcher coverage and order-independent aggregation -/

theorem collect_foldl_not_mem :
    ∀ (arrivals : List (Nat × ChunkResult)) (acc : Nat → Option ChunkResult) (j : Nat),
      j ∉ arrivals.map Prod.fst →
      arrivals.foldl (fun results e => fun i => if i = e.1 then some e.2 else results i) acc j
        = acc j := by
  intro arrivals
  induction arrivals with
  | nil => intro acc j _; rfl
  | cons e tl ih =>
    intro acc j hj
    simp only [List.map_cons, List.mem_cons] at hj
    push_neg at hj
    simp only [List.foldl_cons]
    rw [ih _ j hj.2]
    rw [if_neg hj.1]

theorem collect_foldl_mem :
    ∀ (arrivals : List (Nat × ChunkResult)) (acc : Nat → Option ChunkResult)
      (j : Nat) (r : ChunkResult),
      (arrivals.map Prod.fst).Nodup → (j, r) ∈ arrivals →
      arrivals.foldl (fun results e => fun i => if i = e.1 then some e.2 else results i) acc j
        = some r := by
  intro arrivals
  induction arrivals with
  | nil => intro acc j r _ h; simp at h
  | cons e tl ih =>
    intro acc j r hnd hmem
    simp only [List.map_cons, List.nodup_cons] at hnd
    rcases List.mem_cons.mp hmem with h | h
    · subst h
      simp only [List.foldl_cons]
      rw [collect_foldl_not_mem tl _ j (by simpa using hnd.1)]
      simp
    · simp only [List.foldl_cons]
      exact ih _ j r hnd.2 h

/-- C9: for every per-chunk result assignment `f` and every arrival
(completion) order — any permutation of `0..n-1` — the dispatcher's collected
mapping covers exactly the indices `0..n-1` with one result each (`f i` at
index `i`), and the aggregated documents are a canonical form independent of
the arrival order: labeled sections for success-status chunks in increasing
chunk-index order, error-status chunks omitted from both documents. -/
theorem dispatcher_aggregation_order_independent (n : Nat) (f : Nat → ChunkResult)
    (order : List Nat) (hperm : order.Perm (List.range n)) :
    (∀ i, i < n → collect (order.map fun i => (i, f i)) i = some (f i)) ∧
    (∀ i, ¬ i < n → collect (order.map fun i => (i, f i)) i = none) ∧
    merged_docs n (collect (order.map fun i => (i, f i))) =
      (String.intercalate "\n\n---\n\n" ((List.range n).filterMap fun i =>
        if (f i).status = "success" then some (section_header i (f i).original) else none),
       String.intercalate "\n\n---\n\n" ((List.range n).filterMap fun i =>
        if (f i).status = "success" then some (section_header i (f i).translated) else none)) := by
  have hkeys' : ∀ l : List Nat, (l.map fun i => (i, f i)).map Prod.fst = l := by
    intro l
    induction l with
    | nil => rfl
    | cons a tl ih =>
      simp only [List.map_cons]
      rw [ih]
  have hkeys := hkeys' order
  have hnd : order.Nodup := hperm.symm.nodup (List.nodup_range n)
  have hmem_iff : ∀ i, i ∈ order ↔ i < n := by
    intro i
    rw [hperm.mem_iff, List.mem_range]
  have hcov : ∀ i, i < n → collect (order.map fun i => (i, f i)) i = some (f i) := by
    intro i hi
    apply collect_foldl_mem
    · rw [hkeys]; exact hnd
    · exact List.mem_map.mpr ⟨i, (hmem_iff i).mpr hi, rfl⟩
  have hnone : ∀ i, ¬ i < n → collect (order.map fun i => (i, f i)) i = none := by
    intro i hi
    apply collect_foldl_not_mem
    rw [hkeys]
    intro hmem
    exact hi ((hmem_iff i).mp hmem)
  refine ⟨hcov, hnone, ?_⟩
  simp only [merged_docs, Prod.mk.injEq]
  constructor
  · congr 1
    apply List.filterMap_congr
    intro i hi
    rw [hcov i (List.mem_range.mp hi)]
  · congr 1
    apply List.filterMap_congr
    intro i hi
    rw [hcov i (List.mem_range.mp hi)]

/-- Witness for C9: three chunks, results arriving in order `[2, 0, 1]`;
chunk 1 failed and is omitted, sections appear in index order. -/
theorem dispatcher_aggregation_order_independent_witness :
    (∀ i, i < 3 → collect ([2, 0, 1].map fun i => (i, f3 i)) i = some (f3 i)) ∧
    (∀ i, ¬ i < 3 → collect ([2, 0, 1].map fun i => (i, f3 i)) i = none) ∧
    merged_docs 3 (collect ([2, 0, 1].map fun i => (i, f3 i))) =
      (String.intercalate "\n\n---\n\n" ((List.range 3).filterMap fun i =>
        if (f3 i).status = "success" then some (section_header i (f3 i).original) else none),
       String.intercalate "\n\n---\n\n" ((List.range 3).filterMap fun i =>
        if (f3 i).status = "success" then some (section_header i (f3 i).translated) else none)) :=
  dispatcher_aggregation_order_independent 3 f3 [2, 0, 1] (by decide)
